import Mathlib

/-!
Verification of the FlowBeat client-side playback core: the playback queue
state store (`usePlayerStore`, the Queue Manager) and the audio transport
composable (`useAudio`, the Transport Controller).

The store's reactive refs become fields of an explicit state record and each
store method becomes a pure state-transformer.  JavaScript array indexing
(`xs[i]`, which yields `undefined` out of range) is modelled by an
`Option`-valued lookup, `findIndex`'s `-1` sentinel by `Option` via
`List.findIdx?`, and `Math.random()`-driven draws by an explicit stream of
draws together with a termination hypothesis for the retry loop.
-/

namespace FlowBeat

/-- The `Music` entity (`types/entity.ts`): identifier plus display metadata.
Numeric fields are modelled as `Int` (durations as `Rat`). -/
structure Music where
  id : Int
  title : String
  duration : Rat
  track_number : Int
  file_url : String
  album_id : Int
  created_at : String
deriving DecidableEq, Repr

/-- The play-mode enumeration `PlayMode` of the player store. -/
inductive PlayMode where
  | sequential
  | repeat_one
  | shuffle
deriving DecidableEq, Repr

/-- The reactive state of the player store (`usePlayerStore`): the refs
`currentTrack`, `playlist`, `currentIndex`, `playMode`, `isPlaying`,
`isPlaylistVisible`. -/
structure PlayerState where
  currentTrack : Option Music
  playlist : List Music
  currentIndex : Int
  playMode : PlayMode
  isPlaying : Bool
  isPlaylistVisible : Bool
deriving DecidableEq, Repr

/-- The initial store state: empty queue, no selection, sequential mode. -/
def initState : PlayerState :=
  { currentTrack := none
    playlist := []
    currentIndex := -1
    playMode := PlayMode.sequential
    isPlaying := false
    isPlaylistVisible := false }

/-- JavaScript array read `xs[i]` for a possibly negative or out-of-range
index: `undefined` (here `none`) outside `[0, length)`. -/
def listGet? (l : List Music) (i : Int) : Option Music :=
  if 0 ≤ i then l[i.toNat]? else none

/-- `setPlaylist(tracks, startIndex)`: replaces the queue wholesale; selects
`tracks[startIndex]` when the index is in bounds, otherwise clears the
selection (`currentIndex = -1`, `currentTrack = null`). -/
def setPlaylist (tracks : List Music) (startIndex : Int) (s : PlayerState) :
    PlayerState :=
  if 0 < tracks.length ∧ 0 ≤ startIndex ∧ startIndex < (tracks.length : Int) then
    { s with playlist := tracks
             currentIndex := startIndex
             currentTrack := listGet? tracks startIndex }
  else
    { s with playlist := tracks
             currentIndex := -1
             currentTrack := none }

/-- `addToPlaylist(track)`: pushes the track unless one with the same `id`
already occurs; then, when the resulting queue length is 1, makes the
argument current (`currentIndex = 0`, `currentTrack = track`). -/
def addToPlaylist (track : Music) (s : PlayerState) : PlayerState :=
  let already := s.playlist.any (fun t => t.id == track.id)
  let pl := if already then s.playlist else s.playlist ++ [track]
  let s1 := { s with playlist := pl }
  if pl.length == 1 then
    { s1 with currentIndex := 0, currentTrack := some track }
  else s1

/-- `removeFromPlaylist(trackId)`: `findIndex`'s `-1` early return is the
`none` branch.  On a hit at position `idx`: adjust `currentIndex` (clamp to
the new last slot when removing the current last element; decrement when
removing before the current), splice the element out, then recompute
`currentTrack` (resetting to no selection when the queue became empty). -/
def removeFromPlaylist (trackId : Int) (s : PlayerState) : PlayerState :=
  match s.playlist.findIdx? (fun t => t.id == trackId) with
  | none => s
  | some idx =>
    let index : Int := (idx : Int)
    let ci : Int :=
      if index = s.currentIndex then
        (if index = (s.playlist.length : Int) - 1 then max 0 (index - 1)
         else s.currentIndex)
      else if index < s.currentIndex then s.currentIndex - 1
      else s.currentIndex
    let pl := s.playlist.eraseIdx idx
    if pl.length == 0 then
      { s with playlist := pl, currentIndex := -1, currentTrack := none }
    else
      { s with playlist := pl, currentIndex := ci,
               currentTrack := listGet? pl ci }

/-- `clearPlaylist()`: empties the queue and resets selection and the playing
flag. -/
def clearPlaylist (s : PlayerState) : PlayerState :=
  { s with playlist := [], currentTrack := none, currentIndex := -1,
           isPlaying := false }

/-- `playTrack(track)`: jump to the track's slot when its `id` is already in
the queue, otherwise push it and select the new last slot; either way the
argument becomes the current track. -/
def playTrack (track : Music) (s : PlayerState) : PlayerState :=
  match s.playlist.findIdx? (fun t => t.id == track.id) with
  | none =>
    let pl := s.playlist ++ [track]
    { s with playlist := pl, currentIndex := (pl.length : Int) - 1,
             currentTrack := some track }
  | some idx =>
    { s with currentIndex := (idx : Int), currentTrack := some track }

/-- One draw of the shuffle loop: `Math.floor(Math.random() * len)` at the
k-th iteration, modelled from a stream `r` of raw random naturals. -/
def shuffleDraw (r : Nat → Nat) (len k : Nat) : Nat := r k % len

/-- A draw stream for which the shuffle do-while loop terminates from every
current index whenever the queue has at least two slots (true almost surely
for genuine uniform draws). -/
def FairStream (r : Nat → Nat) : Prop :=
  ∀ (len : Nat) (cur : Int), 1 < len → ∃ k, (shuffleDraw r len k : Int) ≠ cur

/-- The shuffle do-while loop (`do { next = random } while (next === cur)`):
the first draw different from the current index. -/
def shuffleLoop (r : Nat → Nat) (len : Nat) (cur : Int)
    (h : ∃ k, (shuffleDraw r len k : Int) ≠ cur) : Nat :=
  shuffleDraw r len (Nat.find h)

/-- `playNext()`: `null` on an empty queue; next index per play mode
(repeat-one keeps the index, shuffle re-draws until different when length
> 1, sequential stops at the end with a `null` early return); then commits
the index and returns the newly current track. -/
def playNext (r : Nat → Nat) (hr : FairStream r) (s : PlayerState) :
    Option Music × PlayerState :=
  if h0 : s.playlist.length = 0 then (none, s)
  else
    let nextIndex? : Option Int :=
      match s.playMode with
      | PlayMode.repeat_one => some s.currentIndex
      | PlayMode.shuffle =>
        if h1 : s.playlist.length = 1 then some 0
        else
          some (shuffleLoop r s.playlist.length s.currentIndex
            (hr s.playlist.length s.currentIndex (by omega)))
      | PlayMode.sequential =>
        if s.currentIndex ≥ (s.playlist.length : Int) - 1 then none
        else some (s.currentIndex + 1)
    match nextIndex? with
    | none => (none, s)
    | some nextIndex =>
      let t := listGet? s.playlist nextIndex
      (t, { s with currentIndex := nextIndex, currentTrack := t })

/-- `playPrevious()`: symmetric to `playNext`; sequential mode stops with a
`null` early return at index 0 or below. -/
def playPrevious (r : Nat → Nat) (hr : FairStream r) (s : PlayerState) :
    Option Music × PlayerState :=
  if h0 : s.playlist.length = 0 then (none, s)
  else
    let prevIndex? : Option Int :=
      match s.playMode with
      | PlayMode.repeat_one => some s.currentIndex
      | PlayMode.shuffle =>
        if h1 : s.playlist.length = 1 then some 0
        else
          some (shuffleLoop r s.playlist.length s.currentIndex
            (hr s.playlist.length s.currentIndex (by omega)))
      | PlayMode.sequential =>
        if s.currentIndex ≤ 0 then none
        else some (s.currentIndex - 1)
    match prevIndex? with
    | none => (none, s)
    | some prevIndex =>
      let t := listGet? s.playlist prevIndex
      (t, { s with currentIndex := prevIndex, currentTrack := t })

/-- `togglePlayMode()`: cycles through the fixed array
`[sequential, repeat_one, shuffle]` via `indexOf` and `(i + 1) % 3`; the
array read is always in bounds so the `getD` default is never used. -/
def togglePlayMode (s : PlayerState) : PlayerState :=
  let modes := [PlayMode.sequential, PlayMode.repeat_one, PlayMode.shuffle]
  let currentModeIndex := modes.indexOf s.playMode
  let nextModeIndex := (currentModeIndex + 1) % modes.length
  { s with playMode := modes.getD nextModeIndex PlayMode.sequential }

/-- `jumpTo(index)`: no-op out of bounds, otherwise selects the slot. -/
def jumpTo (index : Int) (s : PlayerState) : PlayerState :=
  if 0 ≤ index ∧ index < (s.playlist.length : Int) then
    { s with currentIndex := index, currentTrack := listGet? s.playlist index }
  else s

/-- The Queue Manager operations, one constructor per store method that can
appear in a call sequence.  `advance`/`retreat` carry their own random draw
stream together with its loop-termination evidence. -/
inductive Op where
  | setQueue (tracks : List Music) (startIndex : Int)
  | append (track : Music)
  | remove (trackId : Int)
  | clear
  | selectAndPlay (track : Music)
  | advance (r : Nat → Nat) (hr : FairStream r)
  | retreat (r : Nat → Nat) (hr : FairStream r)
  | jump (index : Int)
  | toggleMode

/-- Applying one Queue Manager operation to a store state. -/
def stepOp (op : Op) (s : PlayerState) : PlayerState :=
  match op with
  | Op.setQueue tracks startIndex => setPlaylist tracks startIndex s
  | Op.append track => addToPlaylist track s
  | Op.remove trackId => removeFromPlaylist trackId s
  | Op.clear => clearPlaylist s
  | Op.selectAndPlay track => playTrack track s
  | Op.advance r hr => (playNext r hr s).2
  | Op.retreat r hr => (playPrevious r hr s).2
  | Op.jump index => jumpTo index s
  | Op.toggleMode => togglePlayMode s

/-- States reachable from the initial empty store by Queue Manager
operations. -/
inductive Reachable : PlayerState → Prop where
  | init : Reachable initState
  | step (op : Op) (s : PlayerState) : Reachable s → Reachable (stepOp op s)

/-- The platform audio resource created by `new Audio(url)`, as far as the
composable drives it: the bound URL and the resource's own `volume`
property.  `gen` is a generation tag standing for the object identity of
successive `Audio` instances (needed to state which instance an awaited
`play()` call belongs to). -/
structure AudioRes where
  url : String
  volume : Rat
  gen : Nat
deriving DecidableEq, Repr

/-- The reactive state of the `useAudio` composable: the refs `isPlaying`,
`currentTime`, `duration`, `volume`, `buffered`, `isLoading` plus the
non-reactive `audio` variable (`none` models `audio = null`).  `nextGen`
feeds the generation tags of successively created resources. -/
structure AudioState where
  isPlaying : Bool
  currentTime : Rat
  duration : Rat
  volume : Rat
  buffered : Rat
  isLoading : Bool
  audio : Option AudioRes
  nextGen : Nat
deriving DecidableEq, Repr

/-- The composable's initial state: all refs at their `ref(...)` initial
values (volume starts at 1) and no `Audio` instance. -/
def initAudioState : AudioState :=
  { isPlaying := false
    currentTime := 0
    duration := 0
    volume := 1
    buffered := 0
    isLoading := false
    audio := none
    nextGen := 0 }

/-- `cleanup()`: pauses and releases the `Audio` instance (listener removal
and `src = ''` have no further observable effect once the instance is
dropped) and resets `isPlaying`, `currentTime`, `duration`, `buffered`,
`isLoading` to their initial values.  The `volume` ref is not touched. -/
def cleanup (s : AudioState) : AudioState :=
  { s with audio := none
           isPlaying := false
           currentTime := 0
           duration := 0
           buffered := 0
           isLoading := false }

/-- `loadTrack(url)`: `cleanup()` then a fresh `Audio(url)` (a new
generation), `isLoading = true`, position/duration/buffered reset, and the
new instance's `volume` property set from the persisted `volume` ref. -/
def loadTrack (url : String) (s : AudioState) : AudioState :=
  let s1 := cleanup s
  { s1 with audio := some { url := url, volume := s1.volume, gen := s1.nextGen }
            nextGen := s1.nextGen + 1
            isLoading := true
            currentTime := 0
            duration := 0
            buffered := 0 }

/-- `setVolume(vol)`: clamps to `[0, 1]`, stores the clamp in the `volume`
ref, and applies it to the `Audio` instance when one is loaded. -/
def setVolume (vol : Rat) (s : AudioState) : AudioState :=
  let clampedVol := max 0 (min 1 vol)
  { s with volume := clampedVol
           audio := s.audio.map (fun a => { a with volume := clampedVol }) }

/-- `play()` up to its suspension point: when an `Audio` instance is loaded
it awaits that instance's `play()` promise; the value is the generation of
the awaited instance (`none` when no instance is loaded and nothing is
awaited). -/
def playAwaitTarget (s : AudioState) : Option Nat :=
  s.audio.map (fun a => a.gen)

/-- How a `play()` promise settles. -/
inductive Settlement where
  | resolved
  | rejected
deriving DecidableEq, Repr

/-- The continuation of `play()` once the awaited promise settles, run in
whatever controller state `s` holds at that moment.  `capturedGen` is the
generation of the instance whose promise settled; the code compares it with
nothing.  After a resolution no statement follows the `await`; a rejection
runs the `catch` block, which only logs and invokes `callbacks.onError`.
The Boolean records whether the external error hook was invoked. -/
def onPlaySettled (s : AudioState) (capturedGen : Nat) (out : Settlement) :
    AudioState × Bool :=
  match out with
  | Settlement.resolved => (s, false)
  | Settlement.rejected => (s, true)

/-! ### Helper definitions and lemmas -/

/-- A sample track with the given identifier and defaulted metadata. -/
def mkTrack (n : Int) : Music :=
  { id := n, title := "", duration := 0, track_number := 0, file_url := ""
    album_id := 0, created_at := "" }

/-- The identity draw stream is fair: for a window of at least two slots,
draw 0 yields value 0 and draw 1 yields value 1, so one of the first two
draws differs from any given current index. -/
theorem fairStream_id : FairStream (fun k => k) := by
  intro len cur hlen
  by_cases h : cur = 0
  · refine ⟨1, ?_⟩
    simp only [shuffleDraw, h, Nat.mod_eq_of_lt hlen]
    decide
  · refine ⟨0, ?_⟩
    simp only [shuffleDraw, Nat.zero_mod]
    exact fun hc => h hc.symm

/-- A found index is within the list. -/
theorem findIdx?_some_lt_length {l : List Music} {p : Music → Bool} {i : Nat}
    (h : l.findIdx? p = some i) : i < l.length :=
  (List.findIdx?_eq_some_iff_findIdx_eq.mp h).1

/-! ### Claim theorems -/

/-- C1: after `setQueue(Q, i)` the queue contents are `Q`; when
`0 ≤ i < Q.length` the current index is `i` and the current track is `Q[i]`;
otherwise (including an empty `Q`) the current index is `-1` and the current
track is none. -/
theorem C1_setQueue_selects_start (Q : List Music) (i : Int) (s : PlayerState) :
    (setPlaylist Q i s).playlist = Q ∧
    (∀ (h0 : 0 ≤ i) (h1 : i < (Q.length : Int)),
      (setPlaylist Q i s).currentIndex = i ∧
      (setPlaylist Q i s).currentTrack = some (Q.get ⟨i.toNat, by omega⟩)) ∧
    (¬ (0 ≤ i ∧ i < (Q.length : Int)) →
      (setPlaylist Q i s).currentIndex = -1 ∧
      (setPlaylist Q i s).currentTrack = none) := by
  unfold setPlaylist
  by_cases hc : 0 < Q.length ∧ 0 ≤ i ∧ i < (Q.length : Int)
  · rw [if_pos hc]
    refine ⟨rfl, fun h0 h1 => ⟨rfl, ?_⟩, fun hn => absurd ⟨hc.2.1, hc.2.2⟩ hn⟩
    simp only [listGet?, if_pos h0]
    rw [List.getElem?_eq_getElem (by omega)]
    rfl
  · rw [if_neg hc]
    refine ⟨rfl, fun h0 h1 => absurd ⟨by omega, h0, h1⟩ hc, fun _ => ⟨rfl, rfl⟩⟩

/-- Witness for C1 at the queue `[mkTrack 1, mkTrack 2]`: start index 1 is
selected, start index 5 clears the selection. -/
theorem C1_setQueue_selects_start_witness :
    (setPlaylist [mkTrack 1, mkTrack 2] 1 initState).currentIndex = 1 ∧
    (setPlaylist [mkTrack 1, mkTrack 2] 1 initState).currentTrack =
      some (mkTrack 2) ∧
    (setPlaylist [mkTrack 1, mkTrack 2] 5 initState).currentIndex = -1 ∧
    (setPlaylist [mkTrack 1, mkTrack 2] 5 initState).currentTrack = none := by
  have h1 := (C1_setQueue_selects_start [mkTrack 1, mkTrack 2] 1 initState).2.1
    (by decide) (by decide)
  have h2 := (C1_setQueue_selects_start [mkTrack 1, mkTrack 2] 5 initState).2.2
    (by decide)
  exact ⟨h1.1, h1.2, h2.1, h2.2⟩

/-- C3 (code divergence witness): in the reachable state with queue
`[mkTrack 7]` and no selection (current index `-1`), appending a track whose
identifier already occurs leaves the queue contents unchanged but moves the
current index to 0 and the current track to the appended track, because the
auto-select branch of `addToPlaylist` tests the queue length after the
skipped push rather than prior emptiness. -/
theorem C3_duplicate_append_moves_selection :
    (setPlaylist [mkTrack 7] 1 initState).currentIndex = -1 ∧
    (setPlaylist [mkTrack 7] 1 initState).currentTrack = none ∧
    (addToPlaylist (mkTrack 7) (setPlaylist [mkTrack 7] 1 initState)).playlist
      = [mkTrack 7] ∧
    (addToPlaylist (mkTrack 7) (setPlaylist [mkTrack 7] 1 initState)).currentIndex
      = 0 ∧
    (addToPlaylist (mkTrack 7) (setPlaylist [mkTrack 7] 1 initState)).currentTrack
      = some (mkTrack 7) := by
  decide

/-- C7: `setVolume(v)` stores `clamp(v, 0, 1)` in the volume ref, applies it
to the loaded resource when one exists, and a subsequent `loadTrack(url)`
creates its resource with exactly that effective volume. -/
theorem C7_setVolume_clamps_and_persists (v : Rat) (url : String)
    (s : AudioState) :
    (setVolume v s).volume = max 0 (min 1 v) ∧
    (setVolume v s).audio =
      s.audio.map (fun a => { a with volume := max 0 (min 1 v) }) ∧
    ((loadTrack url (setVolume v s)).audio.map AudioRes.volume) =
      some (max 0 (min 1 v)) := by
  refine ⟨rfl, rfl, ?_⟩
  simp [loadTrack, cleanup, setVolume]

/-- C8 counterexample: `cleanup()` does not reset the volume ref — after
`setVolume(1/2)` from the initial state, cleanup leaves the volume at `1/2`,
not at its initial value 1. -/
theorem C8_cleanup_keeps_volume_counterexample :
    (cleanup (setVolume (1/2) initAudioState)).volume ≠ 1 := by
  show max 0 (min 1 (1/2 : Rat)) ≠ 1
  rw [min_eq_right (by norm_num : (1/2 : Rat) ≤ 1),
    max_eq_right (by norm_num : (0 : Rat) ≤ 1/2)]
  norm_num

/-- C8 (amended): after `cleanup()` the playing flag, position, duration,
buffered fraction and loading flag equal their initial values and the
resource is released, for every prior state; the volume ref is not reset and
keeps its pre-cleanup value. -/
theorem C8_cleanup_resets_all_but_volume (s : AudioState) :
    (cleanup s).isPlaying = false ∧ (cleanup s).currentTime = 0 ∧
    (cleanup s).duration = 0 ∧ (cleanup s).buffered = 0 ∧
    (cleanup s).isLoading = false ∧ (cleanup s).audio = none ∧
    (cleanup s).volume = s.volume :=
  ⟨rfl, rfl, rfl, rfl, rfl, rfl, rfl⟩

/-- C9 counterexample: a `play()` awaited on the first loaded resource
(generation 0) that is superseded by a second `loadTrack` (current
generation 1) still invokes the error hook when its promise rejects — the
settlement continuation performs no resource-identity check. -/
theorem C9_stale_rejection_fires_hook_counterexample :
    playAwaitTarget (loadTrack "trackA" initAudioState) = some 0 ∧
    ((loadTrack "trackB" (loadTrack "trackA" initAudioState)).audio.map
      AudioRes.gen) = some 1 ∧
    (onPlaySettled (loadTrack "trackB" (loadTrack "trackA" initAudioState))
      0 Settlement.rejected).2 = true := by
  decide

/-- C9 (amended): a superseded `play()`'s settlement never changes the
controller state (nothing follows a successful `await`, and the `catch`
block only invokes the error hook), but the controller performs no
resource-identity check: the error hook is invoked exactly when the promise
rejects, whether or not the awaited resource is still the loaded one. -/
theorem C9_stale_settlement_no_state_change (s : AudioState) (g : Nat)
    (out : Settlement) :
    (onPlaySettled s g out).1 = s ∧
    ((onPlaySettled s g out).2 = true ↔ out = Settlement.rejected) := by
  cases out <;> simp [onPlaySettled]

/-- C5: in sequential mode on a non-empty queue, `advance()` at the last
index returns `null` and leaves the whole state unchanged, and `retreat()`
at index 0 returns `null` and leaves the whole state unchanged; both are
total functions and cannot raise. -/
theorem C5_sequential_boundaries (r : Nat → Nat) (hr : FairStream r)
    (s : PlayerState) (hm : s.playMode = PlayMode.sequential)
    (hne : s.playlist ≠ []) :
    (s.currentIndex = (s.playlist.length : Int) - 1 →
      playNext r hr s = (none, s)) ∧
    (s.currentIndex = 0 → playPrevious r hr s = (none, s)) := by
  have hlen : ¬ s.playlist.length = 0 := by
    simpa using hne
  constructor
  · intro hcur
    have hge : s.currentIndex ≥ (s.playlist.length : Int) - 1 := by omega
    simp [playNext, hlen, hm, hge]
  · intro hcur
    have hle : s.currentIndex ≤ 0 := by omega
    simp [playPrevious, hlen, hm, hle]

/-- A sequential one-track state sitting both at the last index and at
index 0. -/
def seqBoundaryState : PlayerState :=
  { initState with playlist := [mkTrack 1], currentIndex := 0,
                   currentTrack := some (mkTrack 1) }

/-- Witness for C5: on the one-track sequential state, `advance` and
`retreat` both return `null` and change nothing. -/
theorem C5_sequential_boundaries_witness :
    playNext (fun k => k) fairStream_id seqBoundaryState =
      (none, seqBoundaryState) ∧
    playPrevious (fun k => k) fairStream_id seqBoundaryState =
      (none, seqBoundaryState) := by
  have h := C5_sequential_boundaries (fun k => k) fairStream_id
    seqBoundaryState rfl (by decide)
  exact ⟨h.1 (by decide), h.2 (by decide)⟩

/-- The shuffle loop's postcondition: its result differs from the current
index it was asked to avoid. -/
theorem shuffleLoop_ne (r : Nat → Nat) (len : Nat) (cur : Int)
    (h : ∃ k, (shuffleDraw r len k : Int) ≠ cur) :
    (shuffleLoop r len cur h : Int) ≠ cur :=
  Nat.find_spec h

/-- The shuffle loop's result is a valid slot of a non-empty window. -/
theorem shuffleLoop_lt (r : Nat → Nat) (len : Nat) (cur : Int)
    (h : ∃ k, (shuffleDraw r len k : Int) ≠ cur) (hlen : 0 < len) :
    shuffleLoop r len cur h < len :=
  Nat.mod_lt _ hlen

/-- C6: in shuffle mode, `advance()` on a queue of length > 1 always moves
the current index to a different index than the one held immediately before
the call; on a queue of length 1 it selects that single index, 0. -/
theorem C6_shuffle_avoids_repeat (r : Nat → Nat) (hr : FairStream r)
    (s : PlayerState) (hm : s.playMode = PlayMode.shuffle) :
    (1 < s.playlist.length →
      (playNext r hr s).2.currentIndex ≠ s.currentIndex) ∧
    (s.playlist.length = 1 → (playNext r hr s).2.currentIndex = 0) := by
  constructor
  · intro hgt
    have h0 : ¬ s.playlist.length = 0 := by omega
    have h1 : ¬ s.playlist.length = 1 := by omega
    simp only [playNext, dif_neg h0, hm, dif_neg h1]
    exact shuffleLoop_ne _ _ _ _
  · intro hone
    have h0 : ¬ s.playlist.length = 0 := by omega
    simp [playNext, h0, hm, hone]

/-- A two-track shuffle state at index 0. -/
def shuffleTwoState : PlayerState :=
  { initState with playlist := [mkTrack 1, mkTrack 2], currentIndex := 0,
                   currentTrack := some (mkTrack 1),
                   playMode := PlayMode.shuffle }

/-- A one-track shuffle state. -/
def shuffleOneState : PlayerState :=
  { initState with playlist := [mkTrack 1], currentIndex := 0,
                   currentTrack := some (mkTrack 1),
                   playMode := PlayMode.shuffle }

/-- Witness for C6: on a two-track shuffle state at index 0 the advanced
index is not 0; on a one-track shuffle state it is 0. -/
theorem C6_shuffle_avoids_repeat_witness :
    (playNext (fun k => k) fairStream_id shuffleTwoState).2.currentIndex ≠ 0 ∧
    (playNext (fun k => k) fairStream_id shuffleOneState).2.currentIndex = 0 := by
  exact ⟨(C6_shuffle_avoids_repeat (fun k => k) fairStream_id shuffleTwoState
      rfl).1 (by decide),
    (C6_shuffle_avoids_repeat (fun k => k) fairStream_id shuffleOneState
      rfl).2 (by decide)⟩

/-- C2: removing the currently selected track.  When it is the last element
the current index moves to the new last slot (and to `-1` with no current
track when the queue empties); otherwise the current index keeps its numeric
value, so the current track becomes the track that sat immediately after the
removed one. -/
theorem C2_remove_current_track (s : PlayerState) (trackId : Int) (idx : Nat)
    (hfind : s.playlist.findIdx? (fun t => t.id == trackId) = some idx)
    (hcur : (idx : Int) = s.currentIndex) :
    ((idx : Int) = (s.playlist.length : Int) - 1 →
      (s.playlist.length = 1 →
        (removeFromPlaylist trackId s).currentIndex = -1 ∧
        (removeFromPlaylist trackId s).currentTrack = none) ∧
      (s.playlist.length ≠ 1 →
        (removeFromPlaylist trackId s).currentIndex =
          ((removeFromPlaylist trackId s).playlist.length : Int) - 1)) ∧
    ((idx : Int) ≠ (s.playlist.length : Int) - 1 →
      (removeFromPlaylist trackId s).currentIndex = s.currentIndex ∧
      (removeFromPlaylist trackId s).currentTrack =
        listGet? s.playlist (s.currentIndex + 1)) := by
  have hidx : idx < s.playlist.length := findIdx?_some_lt_length hfind
  constructor
  · intro hlast
    constructor
    · intro hone
      have hplen : (s.playlist.eraseIdx idx).length = 0 := by
        rw [List.length_eraseIdx_of_lt hidx]; omega
      simp only [removeFromPlaylist, hfind, hplen]
      simp
    · intro hone
      have hplen : (s.playlist.eraseIdx idx).length = s.playlist.length - 1 :=
        List.length_eraseIdx_of_lt hidx
      have hne : ¬ (s.playlist.length - 1 = 0) := by omega
      have hmax : (0 : Int) ⊔ ((idx : Int) - 1) = (idx : Int) - 1 :=
        max_eq_right (by omega)
      simp only [removeFromPlaylist, hfind, hplen, beq_iff_eq, if_neg hne,
        if_pos hcur, if_pos hlast]
      rw [hmax]
      omega
  · intro hnotlast
    have hlt : idx < s.playlist.length - 1 := by omega
    have hplen : (s.playlist.eraseIdx idx).length = s.playlist.length - 1 :=
      List.length_eraseIdx_of_lt hidx
    have hne : ¬ (s.playlist.length - 1 = 0) := by omega
    simp only [removeFromPlaylist, hfind, hplen, beq_iff_eq, if_neg hne,
      if_pos hcur, if_neg hnotlast]
    refine ⟨trivial, ?_⟩
    rw [← hcur]
    simp only [listGet?, Int.toNat_ofNat, Int.toNat_ofNat_add_one,
      if_pos (by omega : (0 : Int) ≤ (idx : Int)),
      if_pos (by omega : (0 : Int) ≤ (idx : Int) + 1)]
    exact List.getElem?_eraseIdx_of_ge _ _ _ (le_refl idx)

/-- The spec scenario state: queue `[T1, T2, T3]` with `T2` current. -/
def threeTrackState : PlayerState :=
  { initState with playlist := [mkTrack 1, mkTrack 2, mkTrack 3],
                   currentIndex := 1, currentTrack := some (mkTrack 2) }

/-- Witness for C2, the spec scenario: removing `T2` while it is current in
`[T1, T2, T3]` keeps the current index at 1 and makes `T3` current. -/
theorem C2_remove_current_track_witness :
    (removeFromPlaylist 2 threeTrackState).currentIndex = 1 ∧
    (removeFromPlaylist 2 threeTrackState).currentTrack = some (mkTrack 3) := by
  have h := (C2_remove_current_track threeTrackState 2 1 (by decide)
    (by decide)).2 (by decide)
  refine ⟨h.1, ?_⟩
  rw [h.2]
  decide

/-- The index-range invariant: the current index lies in
`[-1, queue length - 1]`, and is `-1` on an empty queue. -/
def IndexInv (s : PlayerState) : Prop :=
  -1 ≤ s.currentIndex ∧ s.currentIndex < (s.playlist.length : Int) ∧
  (s.playlist = [] → s.currentIndex = -1)

/-- Building the index-range invariant for an explicit store record, so the
record projections reduce during unification. -/
theorem IndexInv.of (ct : Option Music) (pl : List Music) (ci : Int)
    (pm : PlayMode) (ip iv : Bool)
    (h1 : -1 ≤ ci) (h2 : ci < (pl.length : Int)) (h3 : pl = [] → ci = -1) :
    IndexInv { currentTrack := ct, playlist := pl, currentIndex := ci,
               playMode := pm, isPlaying := ip, isPlaylistVisible := iv } :=
  ⟨h1, h2, h3⟩

/-- C10: every Queue Manager operation preserves the index-range
invariant. -/
theorem C10_index_range_preserved (op : Op) (s : PlayerState)
    (h : IndexInv s) : IndexInv (stepOp op s) := by
  obtain ⟨h1, h2, h3⟩ := h
  cases op with
  | setQueue tracks startIndex =>
    simp only [stepOp, setPlaylist]
    by_cases hc : 0 < tracks.length ∧ 0 ≤ startIndex ∧
        startIndex < (tracks.length : Int)
    · rw [if_pos hc]
      exact IndexInv.of _ _ _ _ _ _ (by omega) (by omega)
        (fun he => absurd hc.1 (by simp [he]))
    · rw [if_neg hc]
      exact IndexInv.of _ _ _ _ _ _ (by omega) (by omega) (fun _ => rfl)
  | append track =>
    simp only [stepOp, addToPlaylist]
    by_cases ha : (s.playlist.any fun t => t.id == track.id) = true
    · simp only [if_pos ha]
      by_cases hl : s.playlist.length = 1
      · rw [if_pos (by simp [hl])]
        exact IndexInv.of _ _ _ _ _ _ (by omega) (by omega)
          (fun he => absurd hl (by simp [he]))
      · rw [if_neg (by simpa using hl)]
        exact ⟨h1, h2, h3⟩
    · simp only [if_neg ha]
      have hlen : (s.playlist ++ [track]).length = s.playlist.length + 1 := by
        simp
      by_cases hl : s.playlist.length + 1 = 1
      · rw [if_pos (show ((s.playlist ++ [track]).length == 1) = true by
          simp only [beq_iff_eq, hlen]; omega)]
        exact IndexInv.of _ _ _ _ _ _ (by omega) (by rw [hlen]; omega)
          (fun he => absurd he (by simp))
      · rw [if_neg (show ¬ ((s.playlist ++ [track]).length == 1) = true by
          simp only [beq_iff_eq, hlen]; omega)]
        exact IndexInv.of _ _ _ _ _ _ (by omega) (by rw [hlen]; omega)
          (fun he => absurd he (by simp))
  | remove trackId =>
    simp only [stepOp, removeFromPlaylist]
    cases hfind : s.playlist.findIdx? (fun t => t.id == trackId) with
    | none => exact ⟨h1, h2, h3⟩
    | some idx =>
      dsimp only
      have hidx : idx < s.playlist.length := findIdx?_some_lt_length hfind
      have hplen : (s.playlist.eraseIdx idx).length = s.playlist.length - 1 :=
        List.length_eraseIdx_of_lt hidx
      by_cases hz : (s.playlist.eraseIdx idx).length = 0
      · rw [if_pos (show (((s.playlist.eraseIdx idx).length == 0) = true) by
          simp only [beq_iff_eq, hz])]
        exact IndexInv.of _ _ _ _ _ _ (by omega) (by omega) (fun _ => rfl)
      · rw [if_neg (show ¬ (((s.playlist.eraseIdx idx).length == 0) = true) by
          simp only [beq_iff_eq]; omega)]
        refine IndexInv.of _ _ _ _ _ _ ?_ ?_
          (fun he => absurd (by simp [he]) hz) <;> split_ifs <;> omega
  | clear =>
    simp only [stepOp, clearPlaylist]
    exact IndexInv.of _ _ _ _ _ _ (by omega) (by simp) (fun _ => rfl)
  | selectAndPlay track =>
    simp only [stepOp, playTrack]
    cases hfind : s.playlist.findIdx? (fun t => t.id == track.id) with
    | none =>
      refine IndexInv.of _ _ _ _ _ _ ?_ ?_ (fun he => absurd he (by simp)) <;>
        simp <;> omega
    | some idx =>
      have hidx : idx < s.playlist.length := findIdx?_some_lt_length hfind
      refine IndexInv.of _ _ _ _ _ _ (by omega) (by omega) (fun he => ?_)
      rw [he] at hfind
      simp at hfind
  | advance r hr =>
    simp only [stepOp]
    by_cases h0 : s.playlist.length = 0
    · simp only [playNext, dif_pos h0]
      exact ⟨h1, h2, h3⟩
    · cases hm : s.playMode with
      | sequential =>
        simp only [playNext, dif_neg h0, hm]
        by_cases hge : s.currentIndex ≥ (s.playlist.length : Int) - 1
        · rw [if_pos hge]
          exact ⟨h1, h2, h3⟩
        · rw [if_neg hge]
          exact IndexInv.of _ _ _ _ _ _ (by omega) (by omega)
            (fun he => absurd (by simp [he]) h0)
      | repeat_one =>
        simp only [playNext, dif_neg h0, hm]
        exact IndexInv.of _ _ _ _ _ _ (by omega) (by omega)
          (fun he => absurd (by simp [he]) h0)
      | shuffle =>
        simp only [playNext, dif_neg h0, hm]
        by_cases hone : s.playlist.length = 1
        · simp only [dif_pos hone]
          exact IndexInv.of _ _ _ _ _ _ (by omega) (by omega)
            (fun he => absurd (by simp [he]) h0)
        · simp only [dif_neg hone]
          have hlt := shuffleLoop_lt r s.playlist.length s.currentIndex
            (hr s.playlist.length s.currentIndex (by omega)) (by omega)
          exact IndexInv.of _ _ _ _ _ _ (by omega) (by omega)
            (fun he => absurd (by simp [he]) h0)
  | retreat r hr =>
    simp only [stepOp]
    by_cases h0 : s.playlist.length = 0
    · simp only [playPrevious, dif_pos h0]
      exact ⟨h1, h2, h3⟩
    · cases hm : s.playMode with
      | sequential =>
        simp only [playPrevious, dif_neg h0, hm]
        by_cases hle : s.currentIndex ≤ 0
        · rw [if_pos hle]
          exact ⟨h1, h2, h3⟩
        · rw [if_neg hle]
          exact IndexInv.of _ _ _ _ _ _ (by omega) (by omega)
            (fun he => absurd (by simp [he]) h0)
      | repeat_one =>
        simp only [playPrevious, dif_neg h0, hm]
        exact IndexInv.of _ _ _ _ _ _ (by omega) (by omega)
          (fun he => absurd (by simp [he]) h0)
      | shuffle =>
        simp only [playPrevious, dif_neg h0, hm]
        by_cases hone : s.playlist.length = 1
        · simp only [dif_pos hone]
          exact IndexInv.of _ _ _ _ _ _ (by omega) (by omega)
            (fun he => absurd (by simp [he]) h0)
        · simp only [dif_neg hone]
          have hlt := shuffleLoop_lt r s.playlist.length s.currentIndex
            (hr s.playlist.length s.currentIndex (by omega)) (by omega)
          exact IndexInv.of _ _ _ _ _ _ (by omega) (by omega)
            (fun he => absurd (by simp [he]) h0)
  | jump index =>
    simp only [stepOp, jumpTo]
    by_cases hc : 0 ≤ index ∧ index < (s.playlist.length : Int)
    · rw [if_pos hc]
      exact IndexInv.of _ _ _ _ _ _ (by omega) (by omega)
        (fun he => by rw [he] at hc; simp at hc; omega)
    · rw [if_neg hc]
      exact ⟨h1, h2, h3⟩
  | toggleMode =>
    exact ⟨h1, h2, h3⟩

/-- Witness for C10: one step (an `append` to the initial empty store)
starting from the invariant-satisfying initial state keeps the invariant. -/
theorem C10_index_range_preserved_witness :
    IndexInv (stepOp (Op.append (mkTrack 1)) initState) :=
  C10_index_range_preserved (Op.append (mkTrack 1)) initState
    ⟨by decide, by decide, fun _ => rfl⟩

/-- "No two tracks with the same identifier" for a queue. -/
def NodupIds (l : List Music) : Prop := (l.map Music.id).Nodup

/-- An operation whose input cannot inject duplicates: `setQueue` called
with a duplicate-free track list; every other operation unconditionally. -/
def GoodOp : Op → Prop
  | Op.setQueue tracks _ => (tracks.map Music.id).Nodup
  | _ => True

/-- States reachable when every `setQueue` call receives a duplicate-free
track list. -/
inductive ReachableDedup : PlayerState → Prop where
  | init : ReachableDedup initState
  | step (op : Op) (s : PlayerState) : GoodOp op → ReachableDedup s →
      ReachableDedup (stepOp op s)

/-- `playNext` never changes the queue contents. -/
theorem playNext_playlist_eq (r : Nat → Nat) (hr : FairStream r)
    (s : PlayerState) : (playNext r hr s).2.playlist = s.playlist := by
  by_cases h0 : s.playlist.length = 0
  · simp [playNext, h0]
  · cases hm : s.playMode with
    | sequential =>
      simp only [playNext, dif_neg h0, hm]
      by_cases hge : s.currentIndex ≥ (s.playlist.length : Int) - 1
      · rw [if_pos hge]
      · rw [if_neg hge]
    | repeat_one =>
      simp only [playNext, dif_neg h0, hm]
    | shuffle =>
      by_cases hone : s.playlist.length = 1
      · simp only [playNext, dif_neg h0, hm, dif_pos hone]
      · simp only [playNext, dif_neg h0, hm, dif_neg hone]

/-- `playPrevious` never changes the queue contents. -/
theorem playPrevious_playlist_eq (r : Nat → Nat) (hr : FairStream r)
    (s : PlayerState) : (playPrevious r hr s).2.playlist = s.playlist := by
  by_cases h0 : s.playlist.length = 0
  · simp [playPrevious, h0]
  · cases hm : s.playMode with
    | sequential =>
      simp only [playPrevious, dif_neg h0, hm]
      by_cases hle : s.currentIndex ≤ 0
      · rw [if_pos hle]
      · rw [if_neg hle]
    | repeat_one =>
      simp only [playPrevious, dif_neg h0, hm]
    | shuffle =>
      by_cases hone : s.playlist.length = 1
      · simp only [playPrevious, dif_neg h0, hm, dif_pos hone]
      · simp only [playPrevious, dif_neg h0, hm, dif_neg hone]

/-- Appending a track whose identifier is absent keeps identifiers
duplicate-free. -/
theorem nodupIds_append_of_not_mem {l : List Music} {track : Music}
    (h : NodupIds l) (ha : ∀ t ∈ l, ¬ (t.id == track.id) = true) :
    NodupIds (l ++ [track]) := by
  simp only [NodupIds, List.map_append, List.map_cons, List.map_nil]
  rw [List.nodup_append]
  refine ⟨h, List.nodup_singleton _, ?_⟩
  intro a hal hat
  simp only [List.mem_singleton] at hat
  obtain ⟨t, htl, hti⟩ := List.mem_map.mp hal
  exact ha t htl (by simp [hti, hat])

/-- One Queue Manager step with dedup-respecting input keeps queue
identifiers duplicate-free. -/
theorem stepOp_preserves_nodup (op : Op) (s : PlayerState) (hg : GoodOp op)
    (h : NodupIds s.playlist) : NodupIds (stepOp op s).playlist := by
  cases op with
  | setQueue tracks startIndex =>
    simp only [stepOp, setPlaylist]
    split_ifs <;> exact hg
  | append track =>
    simp only [stepOp, addToPlaylist]
    by_cases ha : (s.playlist.any fun t => t.id == track.id) = true
    · simp only [if_pos ha]
      split_ifs <;> exact h
    · simp only [if_neg ha]
      have ha2 : s.playlist.any (fun t => t.id == track.id) = false := by
        simpa using ha
      have ha' : ∀ t ∈ s.playlist, ¬ (t.id == track.id) = true := by
        intro t ht
        simpa using List.any_eq_false.mp ha2 t ht
      split_ifs <;> exact nodupIds_append_of_not_mem h ha'
  | remove trackId =>
    simp only [stepOp, removeFromPlaylist]
    cases hfind : s.playlist.findIdx? (fun t => t.id == trackId) with
    | none => exact h
    | some idx =>
      dsimp only
      have hsub : List.Sublist ((s.playlist.eraseIdx idx).map Music.id)
          (s.playlist.map Music.id) :=
        (List.eraseIdx_sublist s.playlist idx).map Music.id
      split_ifs <;> exact List.Nodup.sublist hsub h
  | clear =>
    simp [stepOp, clearPlaylist, NodupIds]
  | selectAndPlay track =>
    simp only [stepOp, playTrack]
    cases hfind : s.playlist.findIdx? (fun t => t.id == track.id) with
    | none =>
      have ha' : ∀ t ∈ s.playlist, ¬ (t.id == track.id) = true := by
        intro t ht
        have := List.findIdx?_eq_none_iff.mp hfind t ht
        simp [this]
      exact nodupIds_append_of_not_mem h ha'
    | some idx => exact h
  | advance r hr =>
    simpa only [stepOp, playNext_playlist_eq] using h
  | retreat r hr =>
    simpa only [stepOp, playPrevious_playlist_eq] using h
  | jump index =>
    simp only [stepOp, jumpTo]
    split_ifs <;> exact h
  | toggleMode =>
    exact h

/-- C4 counterexample: `setQueue` performs no deduplication, so calling it
with a track list that repeats an identifier yields a reachable state whose
queue holds two tracks with the same identifier. -/
theorem C4_duplicate_reachable_counterexample :
    Reachable (stepOp (Op.setQueue [mkTrack 1, mkTrack 1] 0) initState) ∧
    ¬ NodupIds
      (stepOp (Op.setQueue [mkTrack 1, mkTrack 1] 0) initState).playlist := by
  refine ⟨Reachable.step _ _ Reachable.init, ?_⟩
  simp only [NodupIds]
  decide

/-- C4 (amended): in every state reachable from the initial empty queue by
Queue Manager operations in which each `setQueue` call receives a
duplicate-free track list, the queue contains no two tracks with the same
identifier. -/
theorem C4_nodup_invariant_dedup_inputs (s : PlayerState)
    (h : ReachableDedup s) : NodupIds s.playlist := by
  induction h with
  | init => simp [NodupIds, initState]
  | step op s hg hs ih => exact stepOp_preserves_nodup op s hg ih

/-- Witness for C4 (amended): a `setQueue` of a one-track list followed by
an `append` of a fresh track yields a duplicate-free queue. -/
theorem C4_nodup_invariant_dedup_inputs_witness :
    NodupIds (stepOp (Op.append (mkTrack 2))
      (stepOp (Op.setQueue [mkTrack 1] 0) initState)).playlist :=
  C4_nodup_invariant_dedup_inputs _
    (ReachableDedup.step _ _ trivial
      (ReachableDedup.step _ _
        (by show (([mkTrack 1].map Music.id).Nodup); decide)
        ReachableDedup.init))

end FlowBeat
